import Mathlib

/-!
Verification of the Bitcoin Well to Koinly CSV converter core.

The definitions below are a shallow embedding of the converter source
(`convertMountainTimeToUTC`, `convertRow`, the swap filter and
`generateKoinlyCsv`).  JavaScript strings are modelled as Lean `String`,
JavaScript `undefined` (a missing object key) as `Option.none`, and the
ECMAScript `Date` object as seconds-since-year-0 arithmetic on the
proleptic Gregorian calendar, which is the arithmetic the ECMAScript
specification prescribes (MakeDay, MakeTime, YearFromTime and the UTC
component getters).
-/

/- ===== JavaScript string helpers ===== -/

/-- Prefix test on character lists, used to model `String.includes`. -/
def listHasPre : List Char → List Char → Bool
  | [], _ => true
  | _ :: _, [] => false
  | a :: as, b :: bs => a == b && listHasPre as bs

/-- Substring containment on character lists. -/
def listHasSub (sub : List Char) : List Char → Bool
  | [] => listHasPre sub []
  | c :: rest => listHasPre sub (c :: rest) || listHasSub sub rest

/-- Model of JavaScript `s.includes(sub)`. -/
def strIncludes (s sub : String) : Bool := listHasSub sub.data s.data

/-- Model of JavaScript `s.toLowerCase()`: lower-case every character. -/
def jsToLowerStr (s : String) : String := String.mk (s.data.map Char.toLower)

/-- Model of the JavaScript global replace of each double quote by two
double quotes: every double quote is doubled, all other characters are
kept. -/
def doubleQuotes : List Char → List Char
  | [] => []
  | c :: rest => if c = '"' then '"' :: '"' :: doubleQuotes rest else c :: doubleQuotes rest

/-- Model of JavaScript `Array.prototype.join(sep)`. -/
def joinWith (sep : String) : List String → String
  | [] => ""
  | [x] => x
  | x :: y :: ys => x ++ sep ++ joinWith sep (y :: ys)

/-- Split a character list at newline characters; the standard notion of
the lines of a text joined by single newline characters. -/
def splitNl : List Char → List (List Char)
  | [] => [[]]
  | c :: rest =>
    if c = '\n' then [] :: splitNl rest
    else
      match splitNl rest with
      | l :: ls => (c :: l) :: ls
      | [] => [[c]]

/-- Model of JavaScript `n.toString().padStart(2, "0")` for a natural
number (months, days, hours and minutes are below 100). -/
def pad2 (n : Nat) : String := if n < 10 then "0" ++ toString n else toString n

/- ===== Proleptic Gregorian calendar (the ECMAScript Date model) ===== -/

/-- Gregorian leap-year rule, as used by ECMAScript DaysInYear. -/
def isLeapYear (y : Nat) : Bool := (y % 4 == 0 && y % 100 != 0) || y % 400 == 0

def daysInYear (y : Nat) : Nat := if isLeapYear y then 366 else 365

/-- Days in a month (months numbered 1 to 12; out-of-range months map to
31 so that the month search below always consumes days). -/
def daysInMonth (y : Nat) (m : Nat) : Nat :=
  match m with
  | 2 => if isLeapYear y then 29 else 28
  | 4 => 30
  | 6 => 30
  | 9 => 30
  | 11 => 30
  | _ => 31

/-- Days in the months of year `y` strictly before month `m`. -/
def daysBeforeMonth (y : Nat) : Nat → Nat
  | 0 => 0
  | 1 => 0
  | m + 2 => daysBeforeMonth y (m + 1) + daysInMonth y (m + 1)

/-- Days in the years strictly before year `y` (year 0 is the origin). -/
def daysBeforeYear : Nat → Nat
  | 0 => 0
  | y + 1 => daysBeforeYear y + daysInYear y

/-- Fuel-driven year lookup: starting at year `y` with `d` days left,
find the year containing day `d` and the day offset inside it.  This is
the iterative characterisation ECMAScript gives for YearFromTime. -/
def findYear : Nat → Nat → Nat → Nat × Nat
  | 0, y, d => (y, d)
  | fuel + 1, y, d => if d < daysInYear y then (y, d) else findYear fuel (y + 1) (d - daysInYear y)

/-- Fuel-driven month lookup inside year `y`, starting at month `m`. -/
def findMonth : Nat → Nat → Nat → Nat → Nat × Nat
  | 0, _, m, d => (m, d)
  | fuel + 1, y, m, d =>
    if d < daysInMonth y m then (m, d) else findMonth fuel y (m + 1) (d - daysInMonth y m)

/-- A calendar date-time with named components (month and day 1-based). -/
structure DateTime where
  year : Nat
  month : Nat
  day : Nat
  hour : Nat
  minute : Nat
  second : Nat
deriving DecidableEq

/-- Seconds from the start of year 0 to the given date-time, on the
proleptic Gregorian calendar (ECMAScript MakeDay and MakeTime). -/
def toSecs (dt : DateTime) : Nat :=
  86400 * (daysBeforeYear dt.year + daysBeforeMonth dt.year dt.month + (dt.day - 1))
    + 3600 * dt.hour + 60 * dt.minute + dt.second

/-- Date-time of a count of seconds from the start of year 0
(ECMAScript YearFromTime, MonthFromTime, DateFromTime and the time
component getters). -/
def fromSecs (n : Nat) : DateTime :=
  let days := n / 86400
  let tod := n % 86400
  let yr := findYear (days + 1) 0 days
  let mr := findMonth 12 yr.1 1 yr.2
  ⟨yr.1, mr.1, mr.2 + 1, tod / 3600, tod % 3600 / 60, tod % 60⟩

/-- In-range components: month 1..12, day 1..daysInMonth, hour below 24,
minute and second below 60.  Strings accepted by the timestamp parser
satisfy exactly this predicate. -/
def validDT (dt : DateTime) : Prop :=
  1 ≤ dt.month ∧ dt.month ≤ 12 ∧ 1 ≤ dt.day ∧ dt.day ≤ daysInMonth dt.year dt.month
    ∧ dt.hour ≤ 23 ∧ dt.minute ≤ 59 ∧ dt.second ≤ 59

instance (dt : DateTime) : Decidable (validDT dt) := by
  unfold validDT
  infer_instance

/-- Numeric value of a decimal digit character. -/
def digitVal (c : Char) : Option Nat := if c.isDigit then some (c.toNat - 48) else none

/-- Two-digit decimal field of a timestamp. -/
def twoDigits (c1 c2 : Char) : Option Nat := do
  let a ← digitVal c1
  let b ← digitVal c2
  pure (10 * a + b)

/-- Parse of the pattern accepted by the converter: the string
`YYYY-MM-DD HH:mm:ss` with in-range components.  `new Date` applied to
the transformed string `YYYY-MM-DDTHH:mm:ss-07:00` yields a valid date
exactly on this pattern, and an invalid date otherwise. -/
def parseTimestamp (s : String) : Option DateTime :=
  match s.data with
  | [y1, y2, y3, y4, a, mo1, mo2, b, d1, d2, c, h1, h2, e, mi1, mi2, f, s1, s2] =>
    match twoDigits y1 y2, twoDigits y3 y4, twoDigits mo1 mo2, twoDigits d1 d2,
        twoDigits h1 h2, twoDigits mi1 mi2, twoDigits s1 s2 with
    | some yh, some yl, some mov, some dv, some hv, some miv, some sv =>
      if a = '-' ∧ b = '-' ∧ c = ' ' ∧ e = ':' ∧ f = ':' then
        let dt : DateTime := ⟨100 * yh + yl, mov, dv, hv, miv, sv⟩
        if validDT dt then some dt else none
      else none
    | _, _, _, _, _, _, _ => none
  | _ => none

/-- The UTC output format of the converter: unpadded year, two-digit
month, day, hour and minute, seconds dropped. -/
def renderUTC (dt : DateTime) : String :=
  toString dt.year ++ "-" ++ pad2 dt.month ++ "-" ++ pad2 dt.day ++ " "
    ++ pad2 dt.hour ++ ":" ++ pad2 dt.minute ++ " UTC"

/-- Model of the source function `convertMountainTimeToUTC`: the input
is read as a local time at fixed offset -07:00, so its UTC instant is
the local instant plus 25200 seconds, and the UTC components of that
instant are formatted without seconds.  On input the ECMAScript date
parser rejects, every UTC component getter returns NaN and the template
string produced by the source is the literal NaN string below. -/
def convertMountainTimeToUTC (dateStr : String) : String :=
  match parseTimestamp dateStr with
  | some dt => renderUTC (fromSecs (toSecs dt + 25200))
  | none => "NaN-NaN-NaN NaN:NaN UTC"

/-- The 7-hour shift written the way the specification words it: add 7
to the hour; on crossing midnight, step to the next calendar day,
rolling over month and year boundaries by the Gregorian rules. -/
def nextDay (y m d : Nat) : Nat × Nat × Nat :=
  if d < daysInMonth y m then (y, m, d + 1)
  else if m < 12 then (y, m + 1, 1)
  else (y + 1, 1, 1)

/-- Specification-side shift: the instant moved forward by exactly seven
hours, with explicit day, month and year rollover. -/
def specShift7 (dt : DateTime) : DateTime :=
  if dt.hour + 7 < 24 then ⟨dt.year, dt.month, dt.day, dt.hour + 7, dt.minute, dt.second⟩
  else
    let nd := nextDay dt.year dt.month dt.day
    ⟨nd.1, nd.2.1, nd.2.2, dt.hour + 7 - 24, dt.minute, dt.second⟩

/- ===== Typed rows (the TypeScript interfaces) ===== -/

/-- The BitcoinWellRow interface: one parsed exchange transaction, all
thirteen named fields string-typed (the optional fail-reason field is
never read by the core and is omitted). -/
structure BitcoinWellRow where
  transactionId : String
  orderType : String
  network : String
  orderStatus : String
  orderDate : String
  fiatAmount : String
  fiatCode : String
  cryptoAmount : String
  cryptoCode : String
  minerFee : String
  rate : String
  receivingAddress : String
  transactionHash : String
deriving DecidableEq

/-- The KoinlyRow interface: one output row with the twelve fixed
fields. -/
structure KoinlyRow where
  date : String
  sentAmount : String
  sentCurrency : String
  receivedAmount : String
  receivedCurrency : String
  feeAmount : String
  feeCurrency : String
  netWorthAmount : String
  netWorthCurrency : String
  label : String
  description : String
  txHash : String
deriving DecidableEq

/-- JavaScript `v || dflt` on strings: the empty string is the only
falsy string. -/
def jsOr (v dflt : String) : String := if v = "" then dflt else v

/-- JavaScript `(v && v !== "-") ? v : ""`: keep the value unless it is
empty or the placeholder dash. -/
def amountOr (v : String) : String := if v ≠ "" ∧ v ≠ "-" then v else ""

/-- The source function `convertRow`: classify the row by substring
containment on the lower-cased order type, Buy first, then Sell, then
the default branch, and project the fields into the Koinly schema. -/
def convertRow (row : BitcoinWellRow) : KoinlyRow :=
  let date := convertMountainTimeToUTC row.orderDate
  let orderType := jsToLowerStr row.orderType
  let txHash := jsOr row.transactionHash ""
  let feeAmount := amountOr row.minerFee
  if strIncludes orderType "buy" then
    { date := date, sentAmount := amountOr row.fiatAmount, sentCurrency := jsOr row.fiatCode "",
      receivedAmount := row.cryptoAmount, receivedCurrency := row.cryptoCode,
      feeAmount := feeAmount, feeCurrency := jsOr row.cryptoCode "",
      netWorthAmount := "", netWorthCurrency := "", label := "Buy",
      description := "", txHash := txHash }
  else if strIncludes orderType "sell" then
    { date := date, sentAmount := row.cryptoAmount, sentCurrency := row.cryptoCode,
      receivedAmount := amountOr row.fiatAmount, receivedCurrency := jsOr row.fiatCode "",
      feeAmount := feeAmount, feeCurrency := jsOr row.cryptoCode "",
      netWorthAmount := "", netWorthCurrency := "", label := "Sell",
      description := "", txHash := txHash }
  else
    { date := date, sentAmount := amountOr row.fiatAmount, sentCurrency := jsOr row.fiatCode "",
      receivedAmount := row.cryptoAmount, receivedCurrency := row.cryptoCode,
      feeAmount := feeAmount, feeCurrency := jsOr row.cryptoCode "",
      netWorthAmount := "", netWorthCurrency := "", label := row.orderType,
      description := "", txHash := txHash }

/-- The swap row filter from the source: keep the rows whose lower-cased
order type does not contain the substring swap. -/
def filteredData (data : List BitcoinWellRow) : List BitcoinWellRow :=
  data.filter (fun row => !(strIncludes (jsToLowerStr row.orderType) "swap"))

/- ===== CSV serializer ===== -/

/-- The fixed header list of the serializer. -/
def koinlyHeaders : List String :=
  ["Date", "Sent Amount", "Sent Currency", "Received Amount", "Received Currency",
   "Fee Amount", "Fee Currency", "Net Worth Amount", "Net Worth Currency",
   "Label", "Description", "TxHash"]

/-- Dynamic field lookup `(row as any)[header] ?? ""` on a typed row. -/
def getField (row : KoinlyRow) (h : String) : String :=
  if h = "Date" then row.date
  else if h = "Sent Amount" then row.sentAmount
  else if h = "Sent Currency" then row.sentCurrency
  else if h = "Received Amount" then row.receivedAmount
  else if h = "Received Currency" then row.receivedCurrency
  else if h = "Fee Amount" then row.feeAmount
  else if h = "Fee Currency" then row.feeCurrency
  else if h = "Net Worth Amount" then row.netWorthAmount
  else if h = "Net Worth Currency" then row.netWorthCurrency
  else if h = "Label" then row.label
  else if h = "Description" then row.description
  else if h = "TxHash" then row.txHash
  else ""

/-- Field escaping from the source: wrap in double quotes with internal
quotes doubled when the value contains a comma or a double quote,
otherwise emit the value raw. -/
def escapeField (value : String) : String :=
  if strIncludes value "," || strIncludes value "\"" then
    ⟨'"' :: (doubleQuotes value.data ++ ['"'])⟩
  else value

/-- One serialized data line: the twelve escaped fields joined by
commas, in header order. -/
def renderRow (row : KoinlyRow) : String :=
  joinWith "," (koinlyHeaders.map (fun h => escapeField (getField row h)))

/-- The source function `generateKoinlyCsv`: the joined header line
followed by one rendered line per row, all joined by single newlines. -/
def generateKoinlyCsv (rows : List KoinlyRow) : String :=
  joinWith "\n" (joinWith "," koinlyHeaders :: rows.map renderRow)

/- ===== Raw (untyped) rows: missing keys as Option.none ===== -/

/-- The runtime error raised by a property access on `undefined`. -/
inductive JsError where
  | typeError
deriving DecidableEq

/-- A raw parsed row in which any of the thirteen named keys may be
missing; a missing key reads as JavaScript `undefined`. -/
structure RawRow where
  transactionId : Option String
  orderType : Option String
  network : Option String
  orderStatus : Option String
  orderDate : Option String
  fiatAmount : Option String
  fiatCode : Option String
  cryptoAmount : Option String
  cryptoCode : Option String
  minerFee : Option String
  rate : Option String
  receivingAddress : Option String
  transactionHash : Option String
deriving DecidableEq

/-- A produced row whose values may be `undefined` (a raw copy of a
missing source key). -/
structure RawKoinlyRow where
  date : Option String
  sentAmount : Option String
  sentCurrency : Option String
  receivedAmount : Option String
  receivedCurrency : Option String
  feeAmount : Option String
  feeCurrency : Option String
  netWorthAmount : Option String
  netWorthCurrency : Option String
  label : Option String
  description : Option String
  txHash : Option String
deriving DecidableEq

/-- JavaScript `v || dflt` when `v` may be `undefined`. -/
def jsOrOpt (v : Option String) (dflt : String) : String :=
  match v with
  | some s => if s = "" then dflt else s
  | none => dflt

/-- JavaScript `(v && v !== "-") ? v : ""` when `v` may be
`undefined`. -/
def amountOrOpt (v : Option String) : String :=
  match v with
  | some s => if s ≠ "" ∧ s ≠ "-" then s else ""
  | none => ""

/-- JavaScript `v.toLowerCase()`: a TypeError when `v` is
`undefined`. -/
def jsLower (v : Option String) : Except JsError String :=
  match v with
  | some s => Except.ok (jsToLowerStr s)
  | none => Except.error JsError.typeError

/-- `convertRow` on a raw row, with the runtime evaluation order of the
source: the date conversion first (`undefined.replace` throws), then the
lower-casing of the order type (`undefined.toLowerCase` throws). -/
def convertRowRaw (row : RawRow) : Except JsError RawKoinlyRow := do
  let date ← match row.orderDate with
    | some sd => Except.ok (convertMountainTimeToUTC sd)
    | none => Except.error JsError.typeError
  let orderType ← jsLower row.orderType
  let txHash := jsOrOpt row.transactionHash ""
  let feeAmount := amountOrOpt row.minerFee
  if strIncludes orderType "buy" then
    pure { date := some date, sentAmount := some (amountOrOpt row.fiatAmount),
           sentCurrency := some (jsOrOpt row.fiatCode ""), receivedAmount := row.cryptoAmount,
           receivedCurrency := row.cryptoCode, feeAmount := some feeAmount,
           feeCurrency := some (jsOrOpt row.cryptoCode ""), netWorthAmount := some "",
           netWorthCurrency := some "", label := some "Buy", description := some "",
           txHash := some txHash }
  else if strIncludes orderType "sell" then
    pure { date := some date, sentAmount := row.cryptoAmount,
           sentCurrency := row.cryptoCode, receivedAmount := some (amountOrOpt row.fiatAmount),
           receivedCurrency := some (jsOrOpt row.fiatCode ""), feeAmount := some feeAmount,
           feeCurrency := some (jsOrOpt row.cryptoCode ""), netWorthAmount := some "",
           netWorthCurrency := some "", label := some "Sell", description := some "",
           txHash := some txHash }
  else
    pure { date := some date, sentAmount := some (amountOrOpt row.fiatAmount),
           sentCurrency := some (jsOrOpt row.fiatCode ""), receivedAmount := row.cryptoAmount,
           receivedCurrency := row.cryptoCode, feeAmount := some feeAmount,
           feeCurrency := some (jsOrOpt row.cryptoCode ""), netWorthAmount := some "",
           netWorthCurrency := some "", label := row.orderType, description := some "",
           txHash := some txHash }

/-- The swap filter on raw rows: the predicate lower-cases the order
type of each row in order, so a missing order type throws. -/
def filterRaw : List RawRow → Except JsError (List RawRow)
  | [] => Except.ok []
  | r :: rs => do
    let lt ← jsLower r.orderType
    let rest ← filterRaw rs
    if strIncludes lt "swap" then pure rest else pure (r :: rest)

/-- The core on raw rows: Batch Filter followed by the row
conversion. -/
def runCoreRaw (rows : List RawRow) : Except JsError (List RawKoinlyRow) := do
  let kept ← filterRaw rows
  kept.mapM convertRowRaw

/-- JavaScript `v ?? ""`: nullish coalescing of a possibly `undefined`
value to the empty string. -/
def jsCoalesce (v : Option String) : String :=
  match v with
  | some s => s
  | none => ""

/-- Dynamic field lookup `(row as any)[header] ?? ""` on a raw produced
row: an `undefined` value falls back to the empty string. -/
def getFieldRaw (row : RawKoinlyRow) (h : String) : String :=
  if h = "Date" then jsCoalesce row.date
  else if h = "Sent Amount" then jsCoalesce row.sentAmount
  else if h = "Sent Currency" then jsCoalesce row.sentCurrency
  else if h = "Received Amount" then jsCoalesce row.receivedAmount
  else if h = "Received Currency" then jsCoalesce row.receivedCurrency
  else if h = "Fee Amount" then jsCoalesce row.feeAmount
  else if h = "Fee Currency" then jsCoalesce row.feeCurrency
  else if h = "Net Worth Amount" then jsCoalesce row.netWorthAmount
  else if h = "Net Worth Currency" then jsCoalesce row.netWorthCurrency
  else if h = "Label" then jsCoalesce row.label
  else if h = "Description" then jsCoalesce row.description
  else if h = "TxHash" then jsCoalesce row.txHash
  else ""

/-- `generateKoinlyCsv` over raw produced rows. -/
def generateKoinlyCsvRaw (rows : List RawKoinlyRow) : String :=
  joinWith "\n"
    (joinWith "," koinlyHeaders
      :: rows.map (fun row => joinWith "," (koinlyHeaders.map (fun h => escapeField (getFieldRaw row h)))))

/-- Replace every `undefined` value of a raw produced row by the empty
string. -/
def fillRow (row : RawKoinlyRow) : KoinlyRow :=
  ⟨jsCoalesce row.date, jsCoalesce row.sentAmount, jsCoalesce row.sentCurrency,
   jsCoalesce row.receivedAmount, jsCoalesce row.receivedCurrency, jsCoalesce row.feeAmount,
   jsCoalesce row.feeCurrency, jsCoalesce row.netWorthAmount, jsCoalesce row.netWorthCurrency,
   jsCoalesce row.label, jsCoalesce row.description, jsCoalesce row.txHash⟩

/-- The thirteen named source fields. -/
inductive SourceField where
  | transactionId | orderType | network | orderStatus | orderDate
  | fiatAmount | fiatCode | cryptoAmount | cryptoCode | minerFee
  | rate | receivingAddress | transactionHash
deriving DecidableEq, BEq

/-- Set one named key of a raw row to a given value (`none` removes the
key, `some s` binds it to the string `s`). -/
def setField (f : SourceField) (v : Option String) (row : RawRow) : RawRow :=
  match f with
  | SourceField.transactionId => { row with transactionId := v }
  | SourceField.orderType => { row with orderType := v }
  | SourceField.network => { row with network := v }
  | SourceField.orderStatus => { row with orderStatus := v }
  | SourceField.orderDate => { row with orderDate := v }
  | SourceField.fiatAmount => { row with fiatAmount := v }
  | SourceField.fiatCode => { row with fiatCode := v }
  | SourceField.cryptoAmount => { row with cryptoAmount := v }
  | SourceField.cryptoCode => { row with cryptoCode := v }
  | SourceField.minerFee => { row with minerFee := v }
  | SourceField.rate => { row with rate := v }
  | SourceField.receivingAddress => { row with receivingAddress := v }
  | SourceField.transactionHash => { row with transactionHash := v }

/-- Decidable equality of fallible results, used to evaluate the raw
core on concrete rows. -/
instance exceptDecEq {e a : Type} [DecidableEq e] [DecidableEq a] :
    DecidableEq (Except e a) := fun x y =>
  match x, y with
  | Except.error e1, Except.error e2 =>
    if h : e1 = e2 then Decidable.isTrue (by rw [h])
    else Decidable.isFalse (by intro hc; cases hc; exact h rfl)
  | Except.error _, Except.ok _ => Decidable.isFalse (by intro hc; cases hc)
  | Except.ok _, Except.error _ => Decidable.isFalse (by intro hc; cases hc)
  | Except.ok v1, Except.ok v2 =>
    if h : v1 = v2 then Decidable.isTrue (by rw [h])
    else Decidable.isFalse (by intro hc; cases hc; exact h rfl)

/- ===== Auxiliary definitions for the proofs ===== -/

/-- Sum of the year lengths of the `k` consecutive years starting at
`y0`. -/
def yearSpan (y0 : Nat) : Nat → Nat
  | 0 => 0
  | k + 1 => daysInYear y0 + yearSpan (y0 + 1) k

/-- Sum of the month lengths of the `k` consecutive months of year `y`
starting at month `m0`. -/
def monthSpan (y m0 : Nat) : Nat → Nat
  | 0 => 0
  | k + 1 => daysInMonth y m0 + monthSpan y (m0 + 1) k

/-- Character-level counterpart of joining with a newline. -/
def joinNlChars : List (List Char) → List Char
  | [] => []
  | [x] => x
  | x :: y :: ys => x ++ '\n' :: joinNlChars (y :: ys)

/-- The fixed Koinly header line, written out verbatim. -/
def koinlyHeaderLine : String :=
  "Date,Sent Amount,Sent Currency,Received Amount,Received Currency,Fee Amount,Fee Currency,Net Worth Amount,Net Worth Currency,Label,Description,TxHash"

/-- A target row is newline-free when none of its twelve fields contains
a newline character. -/
def rowNoNl (row : KoinlyRow) : Bool :=
  koinlyHeaders.all (fun h => !((getField row h).data.contains '\n'))

/-- A concrete raw source row with every key present, used to exhibit
counterexamples and witnesses. -/
def sampleRaw : RawRow :=
  ⟨some "id1", some "Buy", some "Bitcoin", some "Complete", some "x", some "100.00",
   some "CAD", some "0.0021", some "BTC", some "-", some "60000", some "addr1",
   some "abc123"⟩

/-- A concrete typed source row used for witnesses. -/
def sampleBuyRow : BitcoinWellRow :=
  ⟨"id1", "Buy", "Bitcoin", "Complete", "2024-01-15 10:00:00", "100.00", "CAD",
   "0.0021", "BTC", "-", "60000", "addr1", "abc123"⟩

/-- A concrete typed sell row used for witnesses. -/
def sampleSellRow : BitcoinWellRow :=
  ⟨"id2", "Sell", "Bitcoin", "Complete", "2024-01-15 10:00:00", "250.00", "CAD",
   "0.005", "BTC", "0.0001", "50000", "addr2", "def456"⟩

/-- A concrete target row used for the serializer witness. -/
def sampleKoinly : KoinlyRow :=
  ⟨"2024-01-15 17:00 UTC", "100.00", "CAD", "0.0021", "BTC", "", "BTC", "", "",
   "Buy", "", "abc123"⟩

/-- A raw produced row with every value `undefined`. -/
def emptyRawKoinly : RawKoinlyRow :=
  ⟨none, none, none, none, none, none, none, none, none, none, none, none⟩

/- ===== Helper lemmas ===== -/

theorem jsOr_empty (v : String) : jsOr v "" = v := by
  unfold jsOr
  split
  · simp [*]
  · rfl

theorem amountOr_eq (v : String) :
    amountOr v = if v = "" ∨ v = "-" then "" else v := by
  unfold amountOr
  split <;> split <;> tauto

/- ===== Claim theorems ===== -/

/-- Claim C1: on a source row whose lower-cased order type contains the
substring buy (this branch is checked first, so it wins even when the
order type also contains sell), convertRow yields Label Buy, Received
Amount and Currency from the crypto fields, Sent Currency from the fiat
code, and Sent Amount from the fiat amount unless that amount is absent
(empty) or the placeholder dash, in which case it is empty. -/
theorem claim_C1_buy_branch (row : BitcoinWellRow)
    (h : strIncludes (jsToLowerStr row.orderType) "buy" = true) :
    (convertRow row).label = "Buy" ∧
    (convertRow row).receivedAmount = row.cryptoAmount ∧
    (convertRow row).receivedCurrency = row.cryptoCode ∧
    (convertRow row).sentCurrency = row.fiatCode ∧
    (convertRow row).sentAmount
      = (if row.fiatAmount = "" ∨ row.fiatAmount = "-" then "" else row.fiatAmount) := by
  simp [convertRow, h, jsOr_empty, amountOr_eq]

theorem claim_C1_witness :
    strIncludes (jsToLowerStr sampleBuyRow.orderType) "buy" = true ∧
    ((convertRow sampleBuyRow).label = "Buy" ∧
     (convertRow sampleBuyRow).receivedAmount = sampleBuyRow.cryptoAmount ∧
     (convertRow sampleBuyRow).receivedCurrency = sampleBuyRow.cryptoCode ∧
     (convertRow sampleBuyRow).sentCurrency = sampleBuyRow.fiatCode ∧
     (convertRow sampleBuyRow).sentAmount
       = (if sampleBuyRow.fiatAmount = "" ∨ sampleBuyRow.fiatAmount = "-" then ""
          else sampleBuyRow.fiatAmount)) :=
  ⟨by decide, claim_C1_buy_branch sampleBuyRow (by decide)⟩

/-- Claim C2: on a source row whose lower-cased order type contains
sell and not buy, convertRow yields Label Sell, Sent Amount and
Currency from the crypto fields, Received Currency from the fiat code,
and Received Amount from the fiat amount with the same
placeholder-emptying rule. -/
theorem claim_C2_sell_branch (row : BitcoinWellRow)
    (h1 : strIncludes (jsToLowerStr row.orderType) "sell" = true)
    (h2 : strIncludes (jsToLowerStr row.orderType) "buy" = false) :
    (convertRow row).label = "Sell" ∧
    (convertRow row).sentAmount = row.cryptoAmount ∧
    (convertRow row).sentCurrency = row.cryptoCode ∧
    (convertRow row).receivedCurrency = row.fiatCode ∧
    (convertRow row).receivedAmount
      = (if row.fiatAmount = "" ∨ row.fiatAmount = "-" then "" else row.fiatAmount) := by
  simp [convertRow, h1, h2, jsOr_empty, amountOr_eq]

theorem claim_C2_witness :
    (strIncludes (jsToLowerStr sampleSellRow.orderType) "sell" = true ∧
     strIncludes (jsToLowerStr sampleSellRow.orderType) "buy" = false) ∧
    ((convertRow sampleSellRow).label = "Sell" ∧
     (convertRow sampleSellRow).sentAmount = sampleSellRow.cryptoAmount ∧
     (convertRow sampleSellRow).sentCurrency = sampleSellRow.cryptoCode ∧
     (convertRow sampleSellRow).receivedCurrency = sampleSellRow.fiatCode ∧
     (convertRow sampleSellRow).receivedAmount
       = (if sampleSellRow.fiatAmount = "" ∨ sampleSellRow.fiatAmount = "-" then ""
          else sampleSellRow.fiatAmount)) :=
  ⟨⟨by decide, by decide⟩, claim_C2_sell_branch sampleSellRow (by decide) (by decide)⟩

/-- Claim C6: in every branch of convertRow the produced row has the
normalized date of the order date, the miner fee (emptied when absent
or a dash) as fee amount, the crypto code as fee currency, empty net
worth fields and description, and the transaction hash (empty when
absent) as the hash. -/
theorem claim_C6_common_fields (row : BitcoinWellRow) :
    (convertRow row).date = convertMountainTimeToUTC row.orderDate ∧
    (convertRow row).feeAmount
      = (if row.minerFee = "" ∨ row.minerFee = "-" then "" else row.minerFee) ∧
    (convertRow row).feeCurrency = row.cryptoCode ∧
    (convertRow row).netWorthAmount = "" ∧
    (convertRow row).netWorthCurrency = "" ∧
    (convertRow row).description = "" ∧
    (convertRow row).txHash = row.transactionHash := by
  simp only [convertRow, jsOr_empty, amountOr_eq]
  split
  · simp
  · split
    · simp
    · simp

/-- Claim C4 (code bug): on input that does not match the timestamp
pattern, the source builds an invalid ECMAScript date and formats its
NaN components, silently returning the garbage string below instead of
failing with an explicit MalformedTimestamp error. -/
theorem claim_C4_malformed_garbage :
    parseTimestamp "hello" = none ∧
    convertMountainTimeToUTC "hello" = "NaN-NaN-NaN NaN:NaN UTC" :=
  ⟨rfl, rfl⟩

theorem filteredData_length_partition (l : List BitcoinWellRow) :
    (filteredData l).length
      + (l.filter (fun r => strIncludes (jsToLowerStr r.orderType) "swap")).length
      = l.length := by
  induction l with
  | nil => rfl
  | cons r rs ih =>
    unfold filteredData at *
    by_cases hb : strIncludes (jsToLowerStr r.orderType) "swap" = true
    · simp [List.filter_cons, hb]
      omega
    · rw [Bool.not_eq_true] at hb
      simp [List.filter_cons, hb]
      omega

/-- Claim C5: the Batch Filter returns the order-preserving subsequence
of the rows whose lower-cased order type does not contain swap; its
length is the input length minus the number of swap rows, and the empty
input yields the empty output. -/
theorem claim_C5_swap_filter :
    (∀ l : List BitcoinWellRow,
      (filteredData l).Sublist l ∧
      (filteredData l).all (fun r => !(strIncludes (jsToLowerStr r.orderType) "swap")) = true ∧
      (filteredData l).length
        + (l.filter (fun r => strIncludes (jsToLowerStr r.orderType) "swap")).length
        = l.length) ∧
    filteredData [] = [] := by
  refine ⟨fun l => ⟨List.filter_sublist l, ?_, filteredData_length_partition l⟩, rfl⟩
  rw [List.all_eq_true]
  intro r hr
  exact (List.mem_filter.mp hr).2

theorem singleton_hasSub_eq_contains (c : Char) (l : List Char) :
    listHasSub [c] l = l.contains c := by
  induction l with
  | nil => rfl
  | cons d rest ih =>
    simp only [listHasSub, listHasPre, List.contains_cons, ih]
    by_cases hcd : c = d
    · subst hcd
      simp
    · have h1 : (c == d) = false := beq_eq_false_iff_ne.mpr hcd
      have h2 : (d == c) = false := beq_eq_false_iff_ne.mpr (Ne.symm hcd)
      simp [h1, h2]

/-- Claim C7: a field is emitted wrapped in double quotes with internal
quotes doubled exactly when its raw text contains a comma or a double
quote; every other field, newlines and carriage returns included, is
emitted raw; in particular the value Tom, "Bones" serializes to
"Tom, ""Bones""". -/
theorem claim_C7_escaping :
    (∀ s : String,
      escapeField s =
        (if s.data.contains ',' || s.data.contains '"' then
          String.mk ('"' :: (doubleQuotes s.data ++ ['"']))
        else s)) ∧
    escapeField "Tom, \"Bones\"" = "\"Tom, \"\"Bones\"\"\"" ∧
    escapeField "a\nb\rc" = "a\nb\rc" := by
  refine ⟨fun s => ?_, by decide, by decide⟩
  unfold escapeField strIncludes
  rw [singleton_hasSub_eq_contains, singleton_hasSub_eq_contains]

theorem strData_append (s t : String) : (s ++ t).data = s.data ++ t.data := rfl

theorem joinWith_nl_data (l : List String) :
    (joinWith "\n" l).data = joinNlChars (l.map String.data) := by
  induction l with
  | nil => rfl
  | cons x xs ih =>
    cases xs with
    | nil => rfl
    | cons y ys =>
      simp only [joinWith, List.map_cons, joinNlChars, strData_append]
      simp only [List.map_cons] at ih
      rw [ih]
      simp

theorem splitNl_no_nl (l : List Char) (h : ¬('\n' ∈ l)) : splitNl l = [l] := by
  induction l with
  | nil => rfl
  | cons c rest ih =>
    have hc : ¬(c = '\n') := fun hc => h (hc ▸ List.mem_cons_self c rest)
    have hr : ¬('\n' ∈ rest) := fun hr => h (List.mem_cons_of_mem c hr)
    simp only [splitNl, if_neg hc, ih hr]

theorem splitNl_append_nl (x t : List Char) (h : ¬('\n' ∈ x)) :
    splitNl (x ++ '\n' :: t) = x :: splitNl t := by
  induction x with
  | nil => simp [splitNl]
  | cons c cs ih =>
    have hc : ¬(c = '\n') := fun hc => h (hc ▸ List.mem_cons_self c cs)
    have hr : ¬('\n' ∈ cs) := fun hr => h (List.mem_cons_of_mem c hr)
    rw [List.cons_append]
    simp only [splitNl, if_neg hc]
    rw [ih hr]

theorem splitNl_joinNl (parts : List (List Char)) (hne : parts ≠ [])
    (h : ∀ p ∈ parts, ¬('\n' ∈ p)) :
    splitNl (joinNlChars parts) = parts := by
  induction parts with
  | nil => exact absurd rfl hne
  | cons x xs ih =>
    cases xs with
    | nil =>
      simp only [joinNlChars]
      exact splitNl_no_nl x (h x (List.mem_cons_self x []))
    | cons y ys =>
      simp only [joinNlChars]
      rw [splitNl_append_nl x _ (h x (List.mem_cons_self x (y :: ys)))]
      rw [ih (by simp) (fun p hp => h p (List.mem_cons_of_mem x hp))]

theorem mem_doubleQuotes (c : Char) (l : List Char) (h : c ∈ doubleQuotes l) :
    c ∈ l ∨ c = '"' := by
  induction l with
  | nil => cases h
  | cons d rest ih =>
    simp only [doubleQuotes] at h
    by_cases hd : d = '"'
    · rw [if_pos hd] at h
      rcases List.mem_cons.mp h with h | h
      · exact Or.inr h
      · rcases List.mem_cons.mp h with h | h
        · exact Or.inr h
        · rcases ih h with h2 | h2
          · exact Or.inl (List.mem_cons_of_mem _ h2)
          · exact Or.inr h2
    · rw [if_neg hd] at h
      rcases List.mem_cons.mp h with h | h
      · exact Or.inl (List.mem_cons.mpr (Or.inl h))
      · rcases ih h with h2 | h2
        · exact Or.inl (List.mem_cons_of_mem _ h2)
        · exact Or.inr h2

theorem escapeField_no_nl (s : String) (h : ¬('\n' ∈ s.data)) :
    ¬('\n' ∈ (escapeField s).data) := by
  unfold escapeField
  split
  · intro hmem
    simp only [List.mem_cons, List.mem_append, List.mem_singleton] at hmem
    rcases hmem with hq | hm | hq
    · exact absurd hq (by decide)
    · rcases mem_doubleQuotes _ _ hm with hm2 | hm2
      · exact h hm2
      · exact absurd hm2 (by decide)
    · exact absurd hq (by decide)
  · exact h

theorem joinWith_comma_no_nl (l : List String) (h : ∀ x ∈ l, ¬('\n' ∈ x.data)) :
    ¬('\n' ∈ (joinWith "," l).data) := by
  induction l with
  | nil => simp [joinWith]
  | cons x xs ih =>
    cases xs with
    | nil => exact h x (List.mem_cons_self x [])
    | cons y ys =>
      simp only [joinWith, strData_append]
      intro hmem
      rcases List.mem_append.mp hmem with hm | hm
      · rcases List.mem_append.mp hm with hm2 | hm2
        · exact h x (List.mem_cons_self x (y :: ys)) hm2
        · exact absurd hm2 (by decide)
      · have := ih (fun z hz => h z (List.mem_cons_of_mem x hz))
        simp only [joinWith] at this
        exact this hm

theorem renderRow_no_nl (row : KoinlyRow) (h : rowNoNl row = true) :
    ¬('\n' ∈ (renderRow row).data) := by
  unfold renderRow
  apply joinWith_comma_no_nl
  intro x hx
  rcases List.mem_map.mp hx with ⟨hd, hhd, hback⟩
  subst hback
  apply escapeField_no_nl
  unfold rowNoNl at h
  rw [List.all_eq_true] at h
  have := h hd hhd
  simp only [Bool.not_eq_eq_eq_not, Bool.not_true] at this
  intro hmem
  rw [← List.elem_iff] at hmem
  have h3 : List.elem '\n' (getField row hd).data = false := this
  rw [h3] at hmem
  cases hmem

/-- Claim C8: the serializer output splits at newlines into exactly the
fixed twelve-name header line followed by one rendered line per record
in input order, with no trailing newline, for every list of records
whose fields are newline-free. -/
theorem claim_C8_csv_layout (rows : List KoinlyRow) (h : rows.all rowNoNl = true) :
    splitNl (generateKoinlyCsv rows).data
      = koinlyHeaderLine.data :: rows.map (fun r => (renderRow r).data) := by
  show splitNl (joinWith "\n" (joinWith "," koinlyHeaders :: rows.map renderRow)).data = _
  rw [joinWith_nl_data]
  rw [List.map_cons]
  rw [splitNl_joinNl]
  · rw [List.map_map]
    rfl
  · simp
  · intro p hp
    rcases List.mem_cons.mp hp with hp | hp
    · subst hp
      decide
    · rcases List.mem_map.mp hp with ⟨r, hr, hback⟩
      subst hback
      rcases List.mem_map.mp hr with ⟨row, hrow, hback2⟩
      subst hback2
      apply renderRow_no_nl
      rw [List.all_eq_true] at h
      exact h row hrow

theorem claim_C8_witness :
    [sampleKoinly].all rowNoNl = true ∧
    splitNl (generateKoinlyCsv [sampleKoinly]).data
      = koinlyHeaderLine.data :: [sampleKoinly].map (fun r => (renderRow r).data) :=
  ⟨by decide, claim_C8_csv_layout [sampleKoinly] (by decide)⟩

theorem jsCoalesce_some (s : String) : jsCoalesce (some s) = s := rfl

theorem mapHeaders_raw_eq_fill (row : RawKoinlyRow) :
    koinlyHeaders.map (fun h => escapeField (getFieldRaw row h))
      = koinlyHeaders.map (fun h => escapeField (getField (fillRow row) h)) := rfl

theorem csvRaw_eq_fill (rows : List RawKoinlyRow) :
    generateKoinlyCsvRaw rows = generateKoinlyCsv (rows.map fillRow) := by
  unfold generateKoinlyCsvRaw generateKoinlyCsv
  rw [List.map_map]
  have hfun : (fun row => joinWith "," (koinlyHeaders.map (fun h => escapeField (getFieldRaw row h))))
      = (fun row => renderRow (fillRow row)) := by
    funext row
    unfold renderRow
    rw [mapHeaders_raw_eq_fill]
  rw [hfun]
  rfl

/-- Claim C10: the serializer is total on raw rows: a missing or
undefined value under any of the twelve header keys is emitted as the
empty field, so serializing raw rows equals serializing the rows with
every undefined value replaced by the empty string; a row with all
twelve values undefined yields one data line of twelve empty fields. -/
theorem claim_C10_raw_serializer :
    (∀ rows : List RawKoinlyRow,
      generateKoinlyCsvRaw rows = generateKoinlyCsv (rows.map fillRow)) ∧
    generateKoinlyCsvRaw [emptyRawKoinly] = koinlyHeaderLine ++ "\n" ++ ",,,,,,,,,,," :=
  ⟨csvRaw_eq_fill, by decide⟩

theorem convertRowRaw_fill_congr (r1 r2 : RawRow)
    (hod : r1.orderDate = r2.orderDate)
    (hot : r1.orderType = r2.orderType)
    (hfa : amountOrOpt r1.fiatAmount = amountOrOpt r2.fiatAmount)
    (hfc : jsOrOpt r1.fiatCode "" = jsOrOpt r2.fiatCode "")
    (hca : jsCoalesce r1.cryptoAmount = jsCoalesce r2.cryptoAmount)
    (hcc : jsCoalesce r1.cryptoCode = jsCoalesce r2.cryptoCode)
    (hcc2 : jsOrOpt r1.cryptoCode "" = jsOrOpt r2.cryptoCode "")
    (hmf : amountOrOpt r1.minerFee = amountOrOpt r2.minerFee)
    (hth : jsOrOpt r1.transactionHash "" = jsOrOpt r2.transactionHash "") :
    (convertRowRaw r1).map fillRow = (convertRowRaw r2).map fillRow := by
  unfold convertRowRaw
  rw [hod, hot]
  cases r2.orderDate with
  | none => rfl
  | some sd =>
    cases r2.orderType with
    | none => rfl
    | some ot =>
      simp only [jsLower, bind, Except.bind]
      by_cases hb : strIncludes (jsToLowerStr ot) "buy" = true
      · simp only [hb, if_true]
        simp [pure, Except.pure, Except.map, fillRow, jsCoalesce_some,
          hfa, hfc, hca, hcc, hcc2, hmf, hth]
      · rw [Bool.not_eq_true] at hb
        simp only [hb, Bool.false_eq_true, if_false]
        by_cases hs : strIncludes (jsToLowerStr ot) "sell" = true
        · simp only [hs, if_true]
          simp [pure, Except.pure, Except.map, fillRow, jsCoalesce_some,
            hfa, hfc, hca, hcc, hcc2, hmf, hth]
        · rw [Bool.not_eq_true] at hs
          simp only [hs, Bool.false_eq_true, if_false]
          simp [pure, Except.pure, Except.map, fillRow, jsCoalesce_some,
            hfa, hfc, hca, hcc, hcc2, hmf, hth]

theorem runCoreOne_csv_congr (r1 r2 : RawRow)
    (hot : r1.orderType = r2.orderType)
    (hfill : (convertRowRaw r1).map fillRow = (convertRowRaw r2).map fillRow) :
    (runCoreRaw [r1]).map generateKoinlyCsvRaw
      = (runCoreRaw [r2]).map generateKoinlyCsvRaw := by
  unfold runCoreRaw filterRaw
  rw [hot]
  cases r2.orderType with
  | none => rfl
  | some ot =>
    simp only [jsLower, filterRaw, bind, Except.bind]
    by_cases hswap : strIncludes (jsToLowerStr ot) "swap" = true
    · simp [hswap, pure, Except.pure, List.mapM, List.mapM.loop, Except.map]
    · rw [Bool.not_eq_true] at hswap
      simp only [hswap, Bool.false_eq_true, if_false, pure, Except.pure]
      cases hc1 : convertRowRaw r1 with
      | error e1 =>
        cases hc2 : convertRowRaw r2 with
        | error e2 =>
          rw [hc1, hc2] at hfill
          simp only [Except.map] at hfill
          cases hfill
          simp [List.mapM, List.mapM.loop, hc1, hc2, bind, Except.bind, Except.map]
        | ok k2 =>
          rw [hc1, hc2] at hfill
          simp [Except.map] at hfill
      | ok k1 =>
        cases hc2 : convertRowRaw r2 with
        | error e2 =>
          rw [hc1, hc2] at hfill
          simp [Except.map] at hfill
        | ok k2 =>
          rw [hc1, hc2] at hfill
          simp only [Except.map, Except.ok.injEq] at hfill
          simp only [List.mapM, List.mapM.loop, hc1, hc2, Except.map, bind, Except.bind,
            pure, Except.pure, List.reverse_cons, List.reverse_nil, List.nil_append]
          rw [csvRaw_eq_fill [k1], csvRaw_eq_fill [k2]]
          simp [hfill]

/-- Claim C9 counterexample: with the order type key missing, the core
throws a TypeError in the Batch Filter instead of behaving as it does
on the empty string, and with the crypto amount key missing the
produced target record carries an undefined value, unlike the empty
string; both refute the claim that every missing key is treated
identically to the empty string. -/
theorem claim_C9_counterexample :
    (runCoreRaw [setField SourceField.orderType none sampleRaw]
        = Except.error JsError.typeError ∧
     runCoreRaw [setField SourceField.orderType none sampleRaw]
        ≠ runCoreRaw [setField SourceField.orderType (some "") sampleRaw]) ∧
    runCoreRaw [setField SourceField.cryptoAmount none sampleRaw]
        ≠ runCoreRaw [setField SourceField.cryptoAmount (some "") sampleRaw] := by
  refine ⟨⟨by decide, by decide⟩, by decide⟩

/-- Claim C9 amended: for every named source field other than the order
type and the order date, removing the key and binding it to the empty
string give the same observable core output (the serialized CSV of the
converted rows, where the undefined values that a missing crypto amount
or code propagates into the target record are flattened to empty
fields); for the order type and order date the code instead throws a
TypeError on the missing key. -/
theorem claim_C9_amended (row : RawRow) (f : SourceField)
    (hf : (f == SourceField.orderType || f == SourceField.orderDate) = false) :
    (runCoreRaw [setField f none row]).map generateKoinlyCsvRaw
      = (runCoreRaw [setField f (some "") row]).map generateKoinlyCsvRaw := by
  cases f
  case orderType => exact absurd hf (by decide)
  case orderDate => exact absurd hf (by decide)
  all_goals
    apply runCoreOne_csv_congr <;>
      first
        | rfl
        | (apply convertRowRaw_fill_congr <;> rfl)

theorem claim_C9_amended_witness :
    ((SourceField.minerFee == SourceField.orderType
        || SourceField.minerFee == SourceField.orderDate) = false) ∧
    (runCoreRaw [setField SourceField.minerFee none sampleRaw]).map generateKoinlyCsvRaw
      = (runCoreRaw [setField SourceField.minerFee (some "") sampleRaw]).map generateKoinlyCsvRaw :=
  ⟨by decide, claim_C9_amended sampleRaw SourceField.minerFee (by decide)⟩

/- ===== Calendar arithmetic lemmas for the time normalizer ===== -/

theorem daysInYear_bounds (y : Nat) : 365 ≤ daysInYear y ∧ daysInYear y ≤ 366 := by
  unfold daysInYear
  split <;> omega

theorem daysInMonth_bounds (y m : Nat) : 28 ≤ daysInMonth y m ∧ daysInMonth y m ≤ 31 := by
  unfold daysInMonth
  split
  · split <;> omega
  all_goals omega

theorem yearSpan_succ (y0 k : Nat) :
    yearSpan y0 (k + 1) = yearSpan y0 k + daysInYear (y0 + k) := by
  induction k generalizing y0 with
  | zero =>
    simp [yearSpan]
  | succ k ih =>
    rw [yearSpan, ih (y0 + 1), yearSpan]
    have he : y0 + 1 + k = y0 + (k + 1) := by omega
    rw [he]
    omega

theorem daysBeforeYear_eq_span (y : Nat) : daysBeforeYear y = yearSpan 0 y := by
  induction y with
  | zero => rfl
  | succ y ih =>
    rw [daysBeforeYear, ih, yearSpan_succ]
    simp

theorem daysBeforeYear_ge (y : Nat) : y ≤ daysBeforeYear y := by
  induction y with
  | zero => exact Nat.le_refl 0
  | succ y ih =>
    rw [daysBeforeYear]
    have := (daysInYear_bounds y).1
    omega

theorem findYear_spec (k : Nat) : ∀ (y0 r fuel : Nat), r < daysInYear (y0 + k) → k < fuel →
    findYear fuel y0 (yearSpan y0 k + r) = (y0 + k, r) := by
  induction k with
  | zero =>
    intro y0 r fuel hr hf
    cases fuel with
    | zero => omega
    | succ f =>
      simp only [yearSpan, Nat.zero_add, findYear]
      rw [if_pos (by simpa using hr)]
      simp
  | succ k ih =>
    intro y0 r fuel hr hf
    cases fuel with
    | zero => omega
    | succ f =>
      have hge := (daysInYear_bounds y0).1
      have hc : ¬(yearSpan y0 (k + 1) + r < daysInYear y0) := by
        rw [yearSpan]
        omega
      simp only [findYear, if_neg hc]
      have he1 : yearSpan y0 (k + 1) + r - daysInYear y0 = yearSpan (y0 + 1) k + r := by
        rw [yearSpan]
        omega
      rw [he1]
      have he2 : y0 + 1 + k = y0 + (k + 1) := by omega
      have hr2 : r < daysInYear (y0 + 1 + k) := by
        rw [he2]
        exact hr
      have := ih (y0 + 1) r f hr2 (by omega)
      rw [this, he2]

theorem monthSpan_succ (y m0 k : Nat) :
    monthSpan y m0 (k + 1) = monthSpan y m0 k + daysInMonth y (m0 + k) := by
  induction k generalizing m0 with
  | zero =>
    simp [monthSpan]
  | succ k ih =>
    rw [monthSpan, ih (m0 + 1), monthSpan]
    have he : m0 + 1 + k = m0 + (k + 1) := by omega
    rw [he]
    omega

theorem daysBeforeMonth_succ (y m : Nat) (hm : 1 ≤ m) :
    daysBeforeMonth y (m + 1) = daysBeforeMonth y m + daysInMonth y m := by
  cases m with
  | zero => omega
  | succ m => rfl

theorem daysBeforeMonth_eq_span (y m : Nat) (hm : 1 ≤ m) :
    daysBeforeMonth y m = monthSpan y 1 (m - 1) := by
  induction m with
  | zero => omega
  | succ m ih =>
    cases Nat.eq_or_lt_of_le hm with
    | inl h1 =>
      have hm0 : m = 0 := by omega
      subst hm0
      rfl
    | inr h1 =>
      have hm1 : 1 ≤ m := by omega
      rw [daysBeforeMonth_succ y m hm1, ih hm1, Nat.succ_sub_one]
      have hk : m = (m - 1) + 1 := by omega
      rw [hk, monthSpan_succ]
      have he : 1 + (m - 1) = m := by omega
      rw [he, ← hk]

theorem findMonth_spec (k : Nat) : ∀ (y m0 r fuel : Nat), r < daysInMonth y (m0 + k) → k < fuel →
    findMonth fuel y m0 (monthSpan y m0 k + r) = (m0 + k, r) := by
  induction k with
  | zero =>
    intro y m0 r fuel hr hf
    cases fuel with
    | zero => omega
    | succ f =>
      simp only [monthSpan, Nat.zero_add, findMonth]
      rw [if_pos (by simpa using hr)]
      simp
  | succ k ih =>
    intro y m0 r fuel hr hf
    cases fuel with
    | zero => omega
    | succ f =>
      have hge := (daysInMonth_bounds y m0).1
      have hc : ¬(monthSpan y m0 (k + 1) + r < daysInMonth y m0) := by
        rw [monthSpan]
        omega
      simp only [findMonth, if_neg hc]
      have he1 : monthSpan y m0 (k + 1) + r - daysInMonth y m0 = monthSpan y (m0 + 1) k + r := by
        rw [monthSpan]
        omega
      rw [he1]
      have he2 : m0 + 1 + k = m0 + (k + 1) := by omega
      have hr2 : r < daysInMonth y (m0 + 1 + k) := by
        rw [he2]
        exact hr
      have := ih y (m0 + 1) r f hr2 (by omega)
      rw [this, he2]

theorem daysBeforeMonth_year (y : Nat) :
    daysBeforeMonth y 12 + daysInMonth y 12 = daysInYear y := by
  cases hl : isLeapYear y <;> simp [daysBeforeMonth, daysInMonth, daysInYear, hl]

theorem daysBeforeMonth_add_le (y m : Nat) (hm1 : 1 ≤ m) (hm2 : m ≤ 12) :
    daysBeforeMonth y m + daysInMonth y m ≤ daysInYear y := by
  interval_cases m <;> cases hl : isLeapYear y <;>
    simp [daysBeforeMonth, daysInMonth, daysInYear, hl]

theorem findYear_day (y r fuel : Nat) (hr : r < daysInYear y) (hf : y < fuel) :
    findYear fuel 0 (daysBeforeYear y + r) = (y, r) := by
  have := findYear_spec y 0 r fuel (by simpa using hr) hf
  rw [daysBeforeYear_eq_span]
  simpa using this

theorem findMonth_day (y m dd : Nat) (hm1 : 1 ≤ m) (hm2 : m ≤ 12)
    (hdd : dd < daysInMonth y m) :
    findMonth 12 y 1 (daysBeforeMonth y m + dd) = (m, dd) := by
  have he : 1 + (m - 1) = m := by omega
  have hr : dd < daysInMonth y (1 + (m - 1)) := by
    rw [he]
    exact hdd
  have hspec := findMonth_spec (m - 1) y 1 dd 12 hr (by omega)
  rw [he] at hspec
  rw [daysBeforeMonth_eq_span y m hm1]
  exact hspec

theorem fromSecs_decomp (D T : Nat) (hT : T < 86400) :
    fromSecs (86400 * D + T)
      = ⟨(findYear (D + 1) 0 D).1,
         (findMonth 12 (findYear (D + 1) 0 D).1 1 (findYear (D + 1) 0 D).2).1,
         (findMonth 12 (findYear (D + 1) 0 D).1 1 (findYear (D + 1) 0 D).2).2 + 1,
         T / 3600, T % 3600 / 60, T % 60⟩ := by
  have hdays : (86400 * D + T) / 86400 = D := by omega
  have htod : (86400 * D + T) % 86400 = T := by omega
  simp only [fromSecs, hdays, htod]

theorem fromSecs_toSecs_shift (dt : DateTime) (h : validDT dt) :
    fromSecs (toSecs dt + 25200) = specShift7 dt := by
  obtain ⟨y, m, d, hh, mi, s⟩ := dt
  unfold validDT at h
  dsimp only at h
  obtain ⟨hm1, hm2, hd1, hd2, hhh, hmi, hs⟩ := h
  have hy := daysBeforeYear_ge y
  have hIM := daysBeforeMonth_add_le y m hm1 hm2
  have hdm28 := (daysInMonth_bounds y m).1
  have hN0 : toSecs ⟨y, m, d, hh, mi, s⟩ + 25200
      = 86400 * (daysBeforeYear y + daysBeforeMonth y m + (d - 1))
        + (3600 * hh + 60 * mi + s + 25200) := by
    unfold toSecs
    dsimp only
    omega
  rw [hN0]
  by_cases hcross : hh + 7 < 24
  · -- stays on the same calendar day
    have hN : 86400 * (daysBeforeYear y + daysBeforeMonth y m + (d - 1))
          + (3600 * hh + 60 * mi + s + 25200)
        = 86400 * (daysBeforeYear y + (daysBeforeMonth y m + (d - 1)))
          + (3600 * (hh + 7) + 60 * mi + s) := by omega
    rw [hN, fromSecs_decomp _ _ (by omega)]
    rw [findYear_day y (daysBeforeMonth y m + (d - 1)) _ (by omega) (by omega)]
    rw [findMonth_day y m (d - 1) hm1 hm2 (by omega)]
    simp only [specShift7, if_pos hcross]
    simp only [DateTime.mk.injEq, and_true, true_and]
    first
      | trivial
      | omega
  · -- crosses midnight: the epoch arithmetic lands on the next day
    by_cases hdm : d < daysInMonth y m
    · -- next day inside the same month
      have hN : 86400 * (daysBeforeYear y + daysBeforeMonth y m + (d - 1))
            + (3600 * hh + 60 * mi + s + 25200)
          = 86400 * (daysBeforeYear y + (daysBeforeMonth y m + d))
            + (3600 * (hh + 7 - 24) + 60 * mi + s) := by omega
      rw [hN, fromSecs_decomp _ _ (by omega)]
      rw [findYear_day y (daysBeforeMonth y m + d) _ (by omega) (by omega)]
      rw [findMonth_day y m d hm1 hm2 hdm]
      simp only [specShift7, if_neg hcross, nextDay, if_pos hdm]
      simp only [DateTime.mk.injEq, and_true, true_and]
      first
        | trivial
        | omega
    · by_cases hm12 : m < 12
      · -- first day of the next month
        have hd2' : d = daysInMonth y m := by omega
        have hIM2 := daysBeforeMonth_add_le y (m + 1) (by omega) (by omega)
        have hdm28b := (daysInMonth_bounds y (m + 1)).1
        have hsucc := daysBeforeMonth_succ y m hm1
        have hN : 86400 * (daysBeforeYear y + daysBeforeMonth y m + (d - 1))
              + (3600 * hh + 60 * mi + s + 25200)
            = 86400 * (daysBeforeYear y + (daysBeforeMonth y (m + 1) + 0))
              + (3600 * (hh + 7 - 24) + 60 * mi + s) := by omega
        rw [hN, fromSecs_decomp _ _ (by omega)]
        rw [findYear_day y (daysBeforeMonth y (m + 1) + 0) _ (by omega) (by omega)]
        rw [findMonth_day y (m + 1) 0 (by omega) (by omega) (by omega)]
        simp only [specShift7, if_neg hcross, nextDay, if_neg hdm, if_pos hm12]
        simp only [DateTime.mk.injEq, and_true, true_and]
        first
          | trivial
          | omega
      · -- first day of the next year
        have hm12' : m = 12 := by omega
        have hd2' : d = daysInMonth y m := by omega
        have hyear := daysBeforeMonth_year y
        have hdby : daysBeforeYear (y + 1) = daysBeforeYear y + daysInYear y := rfl
        have hy1 := daysBeforeYear_ge (y + 1)
        have hdm1 := (daysInMonth_bounds (y + 1) 1).1
        have hdy1 := (daysInYear_bounds (y + 1)).1
        have hN : 86400 * (daysBeforeYear y + daysBeforeMonth y m + (d - 1))
              + (3600 * hh + 60 * mi + s + 25200)
            = 86400 * (daysBeforeYear (y + 1) + 0)
              + (3600 * (hh + 7 - 24) + 60 * mi + s) := by
          subst hm12'
          omega
        rw [hN]
        have hN2 : 86400 * (daysBeforeYear (y + 1) + 0)
              + (3600 * (hh + 7 - 24) + 60 * mi + s)
            = 86400 * (daysBeforeYear (y + 1) + (daysBeforeMonth (y + 1) 1 + 0))
              + (3600 * (hh + 7 - 24) + 60 * mi + s) := by
          simp [daysBeforeMonth]
        rw [hN2, fromSecs_decomp _ _ (by omega)]
        rw [findYear_day (y + 1) (daysBeforeMonth (y + 1) 1 + 0) _ (by simp [daysBeforeMonth]; omega) (by omega)]
        rw [findMonth_day (y + 1) 1 0 (by omega) (by omega) (by omega)]
        simp only [specShift7, if_neg hcross, nextDay, if_neg hdm, if_neg hm12]
        simp only [DateTime.mk.injEq, and_true, true_and]
        first
          | trivial
          | omega

theorem parseTimestamp_valid {s : String} {dt : DateTime}
    (h : parseTimestamp s = some dt) : validDT dt := by
  unfold parseTimestamp at h
  split at h
  · split at h
    · dsimp only at h
      split at h
      · split at h
        · rw [Option.some_inj] at h
          subst h
          assumption
        · cases h
      · cases h
    · cases h
  · cases h

/-- Claim C3: on every string the timestamp parser accepts (the
well-formed YYYY-MM-DD HH:mm:ss pattern), the converter output equals
the parsed local time interpreted at fixed offset -07:00, that is, the
instant shifted forward by exactly seven hours with calendar rollover of
day, month and year, formatted YYYY-MM-DD HH:mm UTC with the seconds
dropped. -/
theorem claim_C3_time_normalizer (s : String) (dt : DateTime)
    (h : parseTimestamp s = some dt) :
    convertMountainTimeToUTC s = renderUTC (specShift7 dt) := by
  unfold convertMountainTimeToUTC
  rw [h]
  show renderUTC (fromSecs (toSecs dt + 25200)) = renderUTC (specShift7 dt)
  rw [fromSecs_toSecs_shift dt (parseTimestamp_valid h)]

theorem claim_C3_witness :
    parseTimestamp "2024-01-15 10:00:00" = some ⟨2024, 1, 15, 10, 0, 0⟩ ∧
    convertMountainTimeToUTC "2024-01-15 10:00:00" = "2024-01-15 17:00 UTC" := by
  refine ⟨by decide, ?_⟩
  rw [claim_C3_time_normalizer "2024-01-15 10:00:00" ⟨2024, 1, 15, 10, 0, 0⟩ (by decide)]
  decide
